import Mathlib

/-!
Verification development for the shared-memory graph-coloring core of the
repository (`src/02-Shared-Memory-Synchronisation/supervisor.c`,
`src/02-Shared-Memory-Synchronisation/generator.c`, and the shared header
`common.h`).  The C code is shallowly embedded: C `int` fields become `Int`
(or `Nat` where the source value is a count that starts at zero and is only
incremented or decremented when positive), fixed C arrays become `List`s,
and the effects of POSIX calls (`sem_wait`, `sem_post`, `sem_unlink`,
`munmap`, ...) are recorded as explicit events so that ordering and
occurrence properties can be stated.
-/

namespace GraphColoring

/-- BUFFER_SIZE from common.h: capacity of the circular buffer. -/
def BUFFER_SIZE : Nat := 20

/-- MAX_REMOVED_EDGES from common.h: bound on removed edges per solution. -/
def MAX_REMOVED_EDGES : Int := 8

/-- MAX_EDGES from generator.c: maximum number of edges accepted by the CLI. -/
def MAX_EDGES : Nat := 200

/-- MAX_NODES from generator.c: size of the `colors` array. -/
def MAX_NODES : Int := 100

/-- edge_t from common.h: one (u, v) edge. -/
structure Edge where
  u : Int
  v : Int
  deriving DecidableEq, Repr

/-- solution_t from common.h: `edge_count` plus the removed edges.  The C
array `edges[MAX_REMOVED_EDGES]` is modelled as the list of edges actually
pushed (only the first `edge_count` array entries are meaningful in C). -/
structure Solution where
  edgeCount : Int
  edges : List Edge
  deriving DecidableEq, Repr

/-- shm_t from common.h together with the values of the two counting
semaphores.  `buffer` is the fixed-size circular array (a list of length
BUFFER_SIZE), `free` and `used` are the current values of the `free_slots`
and `used_slots` semaphores. -/
structure SysState where
  terminate : Bool
  writeIndex : Nat
  readIndex : Nat
  buffer : List Solution
  free : Nat
  used : Nat
  deriving DecidableEq, Repr

/-- Events emitted by one Producer publish attempt
(generator.c lines 111-127). -/
inductive PEvent where
  | waitFree
  | acquireMutex
  | writeSlot (idx : Nat)
  | releaseMutex
  | postUsed
  deriving DecidableEq, Repr

/-- Successful `sem_wait(sem_free)`: consumes one free-slot unit
(generator.c line 112).  A successful wait implies the value was positive. -/
def semWaitFree (s : SysState) : List PEvent × SysState :=
  ([PEvent.waitFree], { s with free := s.free - 1 })

/-- `sem_wait(sem_mutex)` (generator.c line 116); the mutex is modelled only
as an event since the step is a single producer's critical section. -/
def mutexAcquire (s : SysState) : List PEvent × SysState :=
  ([PEvent.acquireMutex], s)

/-- `sem_post(sem_mutex)` (generator.c line 122). -/
def mutexRelease (s : SysState) : List PEvent × SysState :=
  ([PEvent.releaseMutex], s)

/-- Lines 118-120 of generator.c: copy the candidate into
`buffer[write_index]` and advance `write_index` modulo BUFFER_SIZE. -/
def writeBuffer (sol : Solution) (s : SysState) : List PEvent × SysState :=
  ([PEvent.writeSlot s.writeIndex],
   { s with buffer := s.buffer.set s.writeIndex sol,
            writeIndex := (s.writeIndex + 1) % BUFFER_SIZE })

/-- `sem_post(sem_used)` (generator.c line 126). -/
def semPostUsed (s : SysState) : List PEvent × SysState :=
  ([PEvent.postUsed], { s with used := s.used + 1 })

/-- Lines 111-127 of generator.c: one publish attempt.  `waitOk` is the
result of `sem_wait(sem_free)` (`false` models any -1 return, in which case
the loop breaks without having consumed a unit).  Returns the emitted
events, the new state, and whether the main loop continues. -/
def publishAttempt (waitOk : Bool) (s : SysState) (sol : Solution) :
    List PEvent × SysState × Bool :=
  if !waitOk then ([], s, false)
  else
    let r1 := semWaitFree s
    if r1.2.terminate then (r1.1, r1.2, false)
    else
      let r2 := mutexAcquire r1.2
      let r3 := writeBuffer sol r2.2
      let r4 := mutexRelease r3.2
      let r5 := semPostUsed r4.2
      (r1.1 ++ r2.1 ++ r3.1 ++ r4.1 ++ r5.1, r5.2, true)

/-- One completed producer write or owner read, acting on the pair
(value of free_slots, value of used_slots).  A write (generator.c lines
112 and 126) moves one unit from `free_slots` to `used_slots`; a read
(supervisor.c lines 170 and 181) moves one unit back. -/
inductive SemStep : Nat × Nat → Nat × Nat → Prop
  | write (f u : Nat) : 0 < f → SemStep (f, u) (f - 1, u + 1)
  | readSlot (f u : Nat) : 0 < u → SemStep (f, u) (f + 1, u - 1)

/-- Semaphore values reachable from the Owner's initialization
(supervisor.c lines 144-145: free_slots = BUFFER_SIZE, used_slots = 0)
by completed writes and reads. -/
inductive SemReachable : Nat × Nat → Prop
  | init : SemReachable (BUFFER_SIZE, 0)
  | step {p q : Nat × Nat} : SemReachable p → SemStep p q → SemReachable q

/-- C2: at every quiescent point, value(free_slots) + value(used_slots) =
CAPACITY: the sum is BUFFER_SIZE at initialization and is preserved by
every completed producer write and every completed owner read. -/
theorem capacity_conservation (p : Nat × Nat) (h : SemReachable p) :
    p.1 + p.2 = BUFFER_SIZE := by
  induction h with
  | init => rfl
  | step _ hs ih =>
    cases hs with
    | write f u hf => simp at ih ⊢; omega
    | readSlot f u hu => simp at ih ⊢; omega

/-- Witness for capacity_conservation: the state after one completed
producer write is reachable and satisfies the invariant. -/
theorem capacity_conservation_witness :
    SemReachable (BUFFER_SIZE - 1, 0 + 1) ∧
      (BUFFER_SIZE - 1) + (0 + 1) = BUFFER_SIZE :=
  ⟨SemReachable.step SemReachable.init (SemStep.write BUFFER_SIZE 0 (by decide)),
   capacity_conservation (BUFFER_SIZE - 1, 0 + 1)
     (SemReachable.step SemReachable.init
       (SemStep.write BUFFER_SIZE 0 (by decide)))⟩

/-- C1: a producer publish attempt whose `sem_wait(free_slots)` succeeded
performs the write protocol in exactly the specified order.  If `terminate`
is observed set after the wait, the loop exits having consumed the
free-slot unit without replacing it and without writing; otherwise the
events are exactly wait free_slots, acquire write_mutex, write
buffer[write_index] with write_index advanced mod BUFFER_SIZE, release
write_mutex, post used_slots. -/
theorem producer_write_protocol_order (s : SysState) (sol : Solution)
    (hfree : 0 < s.free) :
    (s.terminate = true →
      publishAttempt true s sol =
        ([PEvent.waitFree], { s with free := s.free - 1 }, false)) ∧
    (s.terminate = false →
      publishAttempt true s sol =
        ([PEvent.waitFree, PEvent.acquireMutex, PEvent.writeSlot s.writeIndex,
          PEvent.releaseMutex, PEvent.postUsed],
         { s with free := s.free - 1,
                  buffer := s.buffer.set s.writeIndex sol,
                  writeIndex := (s.writeIndex + 1) % BUFFER_SIZE,
                  used := s.used + 1 },
         true)) := by
  constructor <;> intro h <;>
    simp [publishAttempt, semWaitFree, mutexAcquire, writeBuffer,
      mutexRelease, semPostUsed, h]

/-- Witness for producer_write_protocol_order at a concrete state, one for
each branch of the protocol. -/
theorem producer_write_protocol_order_witness :
    (0 < (20 : Nat) ∧
      publishAttempt true
        (SysState.mk false 0 0 [] 20 0) (Solution.mk 1 [Edge.mk 1 2]) =
        ([PEvent.waitFree, PEvent.acquireMutex, PEvent.writeSlot 0,
          PEvent.releaseMutex, PEvent.postUsed],
         SysState.mk false 1 0 [] 19 1, true)) ∧
    publishAttempt true
        (SysState.mk true 0 0 [] 20 0) (Solution.mk 1 [Edge.mk 1 2]) =
        ([PEvent.waitFree], SysState.mk true 0 0 [] 19 0, false) :=
  ⟨⟨by decide,
    (producer_write_protocol_order
      (SysState.mk false 0 0 [] 20 0) (Solution.mk 1 [Edge.mk 1 2])
      (by decide)).2 rfl⟩,
   (producer_write_protocol_order
      (SysState.mk true 0 0 [] 20 0) (Solution.mk 1 [Edge.mk 1 2])
      (by decide)).1 rfl⟩

/-- The Owner's global handles (supervisor.c lines 23-27): whether shm_ptr
is non-NULL, whether each sem_open handle is non-NULL, and whether shm_fd
is not -1.  `cleanup` never resets any of them (the C globals are never
assigned NULL / -1 again). -/
structure OwnerHandles where
  shmAttached : Bool
  semFree : Bool
  semUsed : Bool
  semMutex : Bool
  shmFd : Bool
  deriving DecidableEq, Repr

/-- Externally visible actions performed by the Owner's `cleanup` and by a
Producer's teardown. -/
inductive Act where
  | setTerminate
  | postFree
  | closeFree
  | unlinkFree
  | closeUsed
  | unlinkUsed
  | closeMutex
  | unlinkMutex
  | munmapShm
  | closeShmFd
  | unlinkShm
  deriving DecidableEq, Repr

/-- Whether an action unlinks a shared named resource. -/
def Act.isUnlink : Act → Bool
  | Act.unlinkFree => true
  | Act.unlinkUsed => true
  | Act.unlinkMutex => true
  | Act.unlinkShm => true
  | _ => false

/-- cleanup from supervisor.c lines 32-65, as the list of actions performed
together with the handle state afterwards.  Each block is guarded by the
corresponding handle being set, exactly as in the source; the source never
clears a handle, so the handle state is returned unchanged. -/
def cleanup (h : OwnerHandles) : List Act × OwnerHandles :=
  ((if h.shmAttached then [Act.setTerminate] else []) ++
   (if h.semFree then
      List.replicate BUFFER_SIZE Act.postFree ++ [Act.closeFree, Act.unlinkFree]
    else []) ++
   (if h.semUsed then [Act.closeUsed, Act.unlinkUsed] else []) ++
   (if h.semMutex then [Act.closeMutex, Act.unlinkMutex] else []) ++
   (if h.shmAttached then [Act.munmapShm] else []) ++
   (if h.shmFd then [Act.closeShmFd, Act.unlinkShm] else []),
   h)

/-- The Owner's handle state after a fully successful initialization
(supervisor.c lines 119-152): everything attached/open. -/
def allHandles : OwnerHandles :=
  OwnerHandles.mk true true true true true

/-- C3 counterexample: calling cleanup a second time after a first complete
execution performs BUFFER_SIZE further free_slots posts, further unlinks,
and a further unmap - there is no state flag making the second call a
no-op. -/
theorem cleanup_twice_not_noop :
    ((cleanup ((cleanup allHandles).2)).1.count Act.postFree = BUFFER_SIZE) ∧
    (cleanup ((cleanup allHandles).2)).1.filter Act.isUnlink ≠ [] ∧
    (cleanup ((cleanup allHandles).2)).1.count Act.munmapShm = 1 := by
  decide

/-- C3 amended: cleanup guards each action on the corresponding handle
being initialized but maintains no done-flag and never clears the handles,
so a second invocation repeats exactly the effects of the first instead of
performing none. -/
theorem cleanup_second_call_repeats (h : OwnerHandles) :
    (cleanup h).2 = h ∧ cleanup ((cleanup h).2) = cleanup h := by
  simp [cleanup]

/-- C4: one execution of cleanup from the fully-initialized state first
sets terminate = 1, then posts free_slots exactly BUFFER_SIZE times, and
only afterwards closes and unlinks the three semaphores and unmaps and
unlinks the shared memory; no post occurs after the close/unlink phase and
the total number of posts is exactly BUFFER_SIZE. -/
theorem cleanup_trace_order :
    (cleanup allHandles).1 =
      Act.setTerminate ::
        (List.replicate BUFFER_SIZE Act.postFree ++
          [Act.closeFree, Act.unlinkFree, Act.closeUsed, Act.unlinkUsed,
           Act.closeMutex, Act.unlinkMutex, Act.munmapShm, Act.closeShmFd,
           Act.unlinkShm]) ∧
    (cleanup allHandles).1.count Act.postFree = BUFFER_SIZE ∧
    ((cleanup allHandles).1.drop (1 + BUFFER_SIZE)).count Act.postFree = 0 := by
  decide

/-- The Owner's processing loop, supervisor.c lines 163-194.  `sols` is the
sequence of Solution Records successively delivered by `sem_wait(sem_used)`
followed by the buffer read; `read` is `solutions_read`, `best` is
`best_edge_count`, and `evts` accumulates, in order, the
(solutions_read, new best) pairs at which the "New best solution found"
branch runs.  During normal serving `terminate` stays 0 (it is set only
inside `cleanup`, which either runs after this loop or is followed by
`exit` in the signal handler), so the loop condition is `read < limit`. -/
def serveGo (limit : Nat) :
    List Solution → Nat → Int → List (Nat × Int) → Nat × Int × List (Nat × Int)
  | [], read, best, evts => (read, best, evts)
  | sol :: rest, read, best, evts =>
    if read < limit then
      if sol.edgeCount < best then
        if sol.edgeCount = 0 then
          (read + 1, sol.edgeCount, evts ++ [(read + 1, sol.edgeCount)])
        else
          serveGo limit rest (read + 1) sol.edgeCount
            (evts ++ [(read + 1, sol.edgeCount)])
      else serveGo limit rest (read + 1) best evts
    else (read, best, evts)

/-- The Owner's loop started as in supervisor.c lines 163-164:
solutions_read = 0, best_edge_count = MAX_REMOVED_EDGES + 1. -/
def serveLoop (limit : Nat) (sols : List Solution) :
    Nat × Int × List (Nat × Int) :=
  serveGo limit sols 0 (MAX_REMOVED_EDGES + 1) []

/-- Helper for C5: if every record before the first zero-conflict record
has positive edge_count and the zero record is reached below the limit,
the loop stops right after reading it, with best 0, and the records after
it are never examined. -/
theorem serveGo_zero_stops (s : Solution) (hs : s.edgeCount = 0) :
    ∀ (pre post : List Solution) (limit read : Nat) (best : Int)
      (evts : List (Nat × Int)),
      (∀ a ∈ pre, 0 < a.edgeCount) → 0 < best → read + pre.length < limit →
      serveGo limit (pre ++ s :: post) read best evts =
          serveGo limit (pre ++ [s]) read best evts ∧
        (serveGo limit (pre ++ s :: post) read best evts).1 =
          read + pre.length + 1 ∧
        (serveGo limit (pre ++ s :: post) read best evts).2.1 = 0 := by
  intro pre
  induction pre with
  | nil =>
    intro post limit read best evts _ hbest hlim
    have hr : read < limit := by simpa using hlim
    simp [serveGo, hs, hr, hbest]
  | cons a pre ih =>
    intro post limit read best evts hpre hbest hlim
    have hr : read < limit := by simp at hlim; omega
    have ha : 0 < a.edgeCount := hpre a (by simp)
    have hane : ¬ a.edgeCount = 0 := by omega
    have hlim' : read + 1 + pre.length < limit := by simp at hlim; omega
    have hpre' : ∀ b ∈ pre, 0 < b.edgeCount := fun b hb => hpre b (by simp [hb])
    by_cases hlt : a.edgeCount < best
    · simp only [List.cons_append, serveGo, if_pos hr, if_pos hlt,
        if_neg hane]
      obtain ⟨h1, h2, h3⟩ := ih post limit (read + 1) a.edgeCount
        (evts ++ [(read + 1, a.edgeCount)]) hpre' ha hlim'
      have h2' : (serveGo limit (pre ++ s :: post) (read + 1) a.edgeCount
          (evts ++ [(read + 1, a.edgeCount)])).1 =
          read + (a :: pre).length + 1 := by
        rw [h2]; simp only [List.length_cons]; omega
      exact ⟨h1, h2', h3⟩
    · simp only [List.cons_append, serveGo, if_pos hr, if_neg hlt]
      obtain ⟨h1, h2, h3⟩ := ih post limit (read + 1) best evts hpre' hbest hlim'
      have h2' : (serveGo limit (pre ++ s :: post) (read + 1) best evts).1 =
          read + (a :: pre).length + 1 := by
        rw [h2]; simp only [List.length_cons]; omega
      exact ⟨h1, h2', h3⟩

/-- C5: whenever the Owner reads a record with edge_count == 0 (the earlier
records having come from Producers, hence positive edge_count, since a
zero would already have ended the loop), it ends the read loop immediately
even though the solution-count limit is not yet reached, and the records
still unread behind it are ignored. -/
theorem zero_solution_ends_loop (limit : Nat) (pre post : List Solution)
    (s : Solution) (hpre : ∀ a ∈ pre, 0 < a.edgeCount)
    (hs : s.edgeCount = 0) (hlim : pre.length < limit) :
    serveLoop limit (pre ++ s :: post) = serveLoop limit (pre ++ [s]) ∧
      (serveLoop limit (pre ++ s :: post)).1 = pre.length + 1 ∧
      (serveLoop limit (pre ++ s :: post)).2.1 = 0 := by
  have h := serveGo_zero_stops s hs pre post limit 0 (MAX_REMOVED_EDGES + 1)
    [] hpre (by decide) (by simpa using hlim)
  simpa [serveLoop] using h

/-- Witness for zero_solution_ends_loop: two positive records, then a
zero-conflict record, with one further record left unread; limit 5. -/
theorem zero_solution_ends_loop_witness :
    (∀ a ∈ [Solution.mk 3 [], Solution.mk 1 []], 0 < a.edgeCount) ∧
      (Solution.mk 0 []).edgeCount = 0 ∧
      ([Solution.mk 3 [], Solution.mk 1 []].length < 5) ∧
      serveLoop 5 ([Solution.mk 3 [], Solution.mk 1 []] ++
          Solution.mk 0 [] :: [Solution.mk 5 []]) =
        serveLoop 5 ([Solution.mk 3 [], Solution.mk 1 []] ++
          [Solution.mk 0 []]) ∧
      (serveLoop 5 ([Solution.mk 3 [], Solution.mk 1 []] ++
          Solution.mk 0 [] :: [Solution.mk 5 []])).1 = 3 ∧
      (serveLoop 5 ([Solution.mk 3 [], Solution.mk 1 []] ++
          Solution.mk 0 [] :: [Solution.mk 5 []])).2.1 = 0 :=
  ⟨by decide, rfl, by decide,
   zero_solution_ends_loop 5 [Solution.mk 3 [], Solution.mk 1 []]
     [Solution.mk 5 []] (Solution.mk 0 []) (by decide) rfl (by decide)⟩

/-- Helper for C7: along the loop, the recorded "new best" events keep
strictly decreasing edge counts, and the final best equals the fold of
`min` over the edge counts of the records actually read.  The invariant
carried is that the accumulated event list is strictly decreasing and its
last entry (if any) records the current best. -/
theorem serveGo_min (limit : Nat) :
    ∀ (sols : List Solution) (read : Nat) (best : Int)
      (evts : List (Nat × Int)),
      List.Chain' (fun a b => b.2 < a.2) evts →
      (∀ e, evts.getLast? = some e → e.2 = best) →
      List.Chain' (fun a b => b.2 < a.2)
          (serveGo limit sols read best evts).2.2 ∧
        (serveGo limit sols read best evts).2.1 =
          ((sols.take ((serveGo limit sols read best evts).1 - read)).map
              Solution.edgeCount).foldl min best ∧
        read ≤ (serveGo limit sols read best evts).1 := by
  intro sols
  induction sols with
  | nil => intro read best evts hC _; simpa [serveGo] using hC
  | cons sol rest ih =>
    intro read best evts hC hlast
    by_cases hr : read < limit
    · by_cases hlt : sol.edgeCount < best
      · have hC' : List.Chain' (fun a b => b.2 < a.2)
            (evts ++ [(read + 1, sol.edgeCount)]) := by
          refine hC.append (List.chain'_singleton _) ?_
          intro x hx y hy
          simp at hy
          subst hy
          rw [hlast x hx]
          exact hlt
        have hlast' : ∀ e,
            (evts ++ [(read + 1, sol.edgeCount)]).getLast? = some e →
            e.2 = sol.edgeCount := by
          intro e he
          rw [List.getLast?_concat] at he
          cases he
          rfl
        by_cases hz : sol.edgeCount = 0
        · simp only [serveGo, if_pos hr, if_pos hlt, if_pos hz]
          refine ⟨hC', ?_, by omega⟩
          have h1 : read + 1 - read = 1 := by omega
          rw [h1]
          simp [min_eq_right (le_of_lt hlt)]
        · simp only [serveGo, if_pos hr, if_pos hlt, if_neg hz]
          obtain ⟨ih1, ih2, ih3⟩ := ih (read + 1) sol.edgeCount
            (evts ++ [(read + 1, sol.edgeCount)]) hC' hlast'
          refine ⟨ih1, ?_, by omega⟩
          rw [ih2]
          have hk : (serveGo limit rest (read + 1) sol.edgeCount
              (evts ++ [(read + 1, sol.edgeCount)])).1 - read =
              ((serveGo limit rest (read + 1) sol.edgeCount
                (evts ++ [(read + 1, sol.edgeCount)])).1 - (read + 1)) + 1 := by
            omega
          rw [hk, List.take_succ_cons, List.map_cons, List.foldl_cons,
            min_eq_right (le_of_lt hlt)]
      · simp only [serveGo, if_pos hr, if_neg hlt]
        obtain ⟨ih1, ih2, ih3⟩ := ih (read + 1) best evts hC hlast
        refine ⟨ih1, ?_, by omega⟩
        rw [ih2]
        have hk : (serveGo limit rest (read + 1) best evts).1 - read =
            ((serveGo limit rest (read + 1) best evts).1 - (read + 1)) + 1 := by
          omega
        rw [hk, List.take_succ_cons, List.map_cons, List.foldl_cons,
          min_eq_left (not_lt.mp hlt)]
    · simp only [serveGo, if_neg hr]
      simpa using hC

/-- C7: in the Owner's loop the tracked best is replaced only on a strict
improvement: the sequence of recorded "new best" values is strictly
decreasing (so a later record whose edge_count equals the current best is
never recorded), and the final best is exactly the minimum (under `min`)
of the initial value MAX_REMOVED_EDGES + 1 and the edge counts of the
records actually read. -/
theorem best_strictly_improving (limit : Nat) (sols : List Solution) :
    List.Chain' (fun a b => b.2 < a.2) (serveLoop limit sols).2.2 ∧
      (serveLoop limit sols).2.1 =
        ((sols.take (serveLoop limit sols).1).map Solution.edgeCount).foldl
          min (MAX_REMOVED_EDGES + 1) := by
  obtain ⟨h1, h2, _⟩ := serveGo_min limit sols 0 (MAX_REMOVED_EDGES + 1) []
    List.chain'_nil (fun e he => by simp at he)
  exact ⟨h1, by simpa [serveLoop] using h2⟩

/-- generator.c lines 94-107: the edge-verification loop.  `colors` is the
contents of the `colors` array as a total function (the C code may index
it out of bounds; that unsafety is treated separately and here the read
simply yields whatever the function returns).  `cnt` is `sol.edge_count`,
`acc` the edges pushed so far.  A conflicting edge is pushed while
`cnt < MAX_REMOVED_EDGES`; otherwise the candidate is invalid (`none`). -/
def verifyGo (colors : Int → Int) : List Edge → Int → List Edge → Option Solution
  | [], cnt, acc => some (Solution.mk cnt acc)
  | e :: rest, cnt, acc =>
    if colors e.u = colors e.v then
      if cnt < MAX_REMOVED_EDGES then verifyGo colors rest (cnt + 1) (acc ++ [e])
      else none
    else verifyGo colors rest cnt acc

/-- generator.c lines 89-107: build the candidate Solution Record for one
random coloring, starting from edge_count = 0; `none` means
`solution_valid == 0` (the candidate is discarded). -/
def buildSolution (colors : Int → Int) (es : List Edge) : Option Solution :=
  verifyGo colors es 0 []

/-- Helper: the verification loop keeps `0 ≤ edge_count ≤
MAX_REMOVED_EDGES`. -/
theorem verifyGo_bounds (colors : Int → Int) :
    ∀ (es : List Edge) (cnt : Int) (acc : List Edge) (s : Solution),
      0 ≤ cnt → cnt ≤ MAX_REMOVED_EDGES →
      verifyGo colors es cnt acc = some s →
      0 ≤ s.edgeCount ∧ s.edgeCount ≤ MAX_REMOVED_EDGES := by
  intro es
  induction es with
  | nil =>
    intro cnt acc s h0 h8 h
    simp only [verifyGo, Option.some.injEq] at h
    rw [← h]
    exact ⟨h0, h8⟩
  | cons e rest ih =>
    intro cnt acc s h0 h8 h
    simp only [verifyGo] at h
    by_cases hc : colors e.u = colors e.v
    · rw [if_pos hc] at h
      by_cases hlt : cnt < MAX_REMOVED_EDGES
      · rw [if_pos hlt] at h
        exact ih (cnt + 1) (acc ++ [e]) s (by omega) (by omega) h
      · rw [if_neg hlt] at h
        exact absurd h (by simp)
    · rw [if_neg hc] at h
      exact ih cnt acc s h0 h8 h

/-- Teardown performed by a Producer after its main loop
(generator.c lines 129-134): detach only, in this order, and no unlink. -/
def teardown : List Act :=
  [Act.munmapShm, Act.closeFree, Act.closeUsed, Act.closeMutex, Act.closeShmFd]

/-- Per-iteration environment of the Producer's main loop: the value of
`terminate` observed at the loop head (line 82), the random coloring of
this iteration (line 86), the result of `sem_wait(sem_free)` (line 112,
`false` for any -1 return whatever its cause), and the value of
`terminate` observed at the re-check (line 113). -/
structure PIn where
  termAtTop : Bool
  colors : Int → Int
  waitOk : Bool
  termAfterWait : Bool

/-- generator.c lines 82-127: the Producer's main loop, driven by a finite
list of per-iteration environments.  Returns `some` final state when the
loop exits, `none` when the supplied environments are exhausted with the
loop still running. -/
def producerSteps (es : List Edge) : List PIn → SysState → Option SysState
  | [], _ => none
  | inp :: rest, s =>
    if inp.termAtTop then some s
    else
      match buildSolution inp.colors es with
      | none => producerSteps es rest s
      | some sol =>
        match publishAttempt inp.waitOk
            { s with terminate := inp.termAfterWait } sol with
        | (_, s2, cont) =>
          if cont then producerSteps es rest s2 else some s2

/-- generator.c lines 129-136: once attached, every exit from the main
loop runs the detach-only teardown and returns EXIT_SUCCESS (0). -/
def producerExit (es : List Edge) (ins : List PIn) (s : SysState) :
    Option (Nat × List Act) :=
  (producerSteps es ins s).map (fun _ => (0, teardown))

/-- C6: a candidate that survives the verification loop satisfies
0 ≤ edge_count ≤ MAX_REMOVED_EDGES, and a candidate that exceeds
MAX_REMOVED_EDGES conflicts is discarded: the iteration continues with the
state untouched, no semaphore operation and no buffer write. -/
theorem published_solution_bounds (colors : Int → Int) (es : List Edge) :
    (∀ s : Solution, buildSolution colors es = some s →
      0 ≤ s.edgeCount ∧ s.edgeCount ≤ MAX_REMOVED_EDGES) ∧
    (buildSolution colors es = none →
      ∀ (w t : Bool) (rest : List PIn) (s0 : SysState),
        producerSteps es (PIn.mk false colors w t :: rest) s0 =
          producerSteps es rest s0) := by
  constructor
  · intro s h
    exact verifyGo_bounds colors es 0 [] s (by decide) (by decide) h
  · intro hnone w t rest s0
    simp [producerSteps, hnone]

/-- Witness for published_solution_bounds: a triangle coloring with one
conflict yields a bounded record; nine conflicting edges yield a discarded
candidate and an unchanged iteration. -/
theorem published_solution_bounds_witness :
    (buildSolution (fun _ => 0) [Edge.mk 1 2] =
        some (Solution.mk 1 [Edge.mk 1 2])) ∧
    (0 ≤ (Solution.mk 1 [Edge.mk 1 2]).edgeCount ∧
      (Solution.mk 1 [Edge.mk 1 2]).edgeCount ≤ MAX_REMOVED_EDGES) ∧
    (buildSolution (fun _ => 0)
        (List.replicate 9 (Edge.mk 1 2)) = none) ∧
    producerSteps (List.replicate 9 (Edge.mk 1 2))
        [PIn.mk false (fun _ => 0) true false]
        (SysState.mk false 0 0 [] BUFFER_SIZE 0) =
      producerSteps (List.replicate 9 (Edge.mk 1 2)) []
        (SysState.mk false 0 0 [] BUFFER_SIZE 0) :=
  ⟨by decide,
   (published_solution_bounds (fun _ => 0) [Edge.mk 1 2]).1
     (Solution.mk 1 [Edge.mk 1 2]) (by decide),
   by decide,
   (published_solution_bounds (fun _ => 0)
       (List.replicate 9 (Edge.mk 1 2))).2 (by decide) true false []
     (SysState.mk false 0 0 [] BUFFER_SIZE 0)⟩

/-- C10: whenever the Producer's main loop exits - in particular whenever
`sem_wait(sem_free)` fails for any cause, which alone ends the loop - the
process performs only the detach teardown (munmap, three sem_close, close),
never unlinks a shared resource, and exits with status 0. -/
theorem producer_exit_success (es : List Edge) :
    (∀ (ins : List PIn) (s0 : SysState) (r : Nat × List Act),
      producerExit es ins s0 = some r →
      r.1 = 0 ∧ r.2 = teardown ∧
        (r.2.all (fun a => !a.isUnlink)) = true) ∧
    (∀ (inp : PIn) (rest : List PIn) (s0 : SysState),
      inp.termAtTop = false → (buildSolution inp.colors es).isSome = true →
      inp.waitOk = false →
      producerExit es (inp :: rest) s0 = some (0, teardown)) := by
  constructor
  · intro ins s0 r h
    simp only [producerExit, Option.map_eq_some'] at h
    obtain ⟨s1, _, hr⟩ := h
    rw [← hr]
    exact ⟨rfl, rfl, by decide⟩
  · intro inp rest s0 htop hsome hwait
    obtain ⟨sol, hsol⟩ := Option.isSome_iff_exists.mp hsome
    simp [producerExit, producerSteps, htop, hsol, hwait, publishAttempt]

/-- Witness for producer_exit_success: a concrete iteration whose
free-slot wait fails exits the loop with status 0 and the detach-only
teardown. -/
theorem producer_exit_success_witness :
    producerExit [Edge.mk 1 2] [PIn.mk false (fun _ => 0) false false]
        (SysState.mk false 0 0 [] BUFFER_SIZE 0) = some (0, teardown) ∧
    ((0 : Nat) = 0 ∧ teardown = teardown ∧
      (teardown.all (fun a => !a.isUnlink)) = true) :=
  ⟨(producer_exit_success [Edge.mk 1 2]).2
     (PIn.mk false (fun _ => 0) false false) []
     (SysState.mk false 0 0 [] BUFFER_SIZE 0) rfl (by decide) rfl,
   (producer_exit_success [Edge.mk 1 2]).1
     [PIn.mk false (fun _ => 0) false false]
     (SysState.mk false 0 0 [] BUFFER_SIZE 0) (0, teardown)
     ((producer_exit_success [Edge.mk 1 2]).2
       (PIn.mk false (fun _ => 0) false false) []
       (SysState.mk false 0 0 [] BUFFER_SIZE 0) rfl (by decide) rfl)⟩

/-- C `isspace` for the default locale, as used by `strtol` and `%d`. -/
def isSpaceC (c : Char) : Bool :=
  c = ' ' || c = '\t' || c = '\n' || c = '\x0b' || c = '\x0c' || c = '\r'

/-- ASCII decimal digit test. -/
def isDigitC (c : Char) : Bool := decide ('0' ≤ c) && decide (c ≤ '9')

/-- Numeric value of one ASCII digit. -/
def digitVal (c : Char) : Nat := c.toNat - '0'.toNat

/-- Value of a decimal digit string. -/
def natOfDigits (ds : List Char) : Nat :=
  ds.foldl (fun a c => a * 10 + digitVal c) 0

/-- Optional sign at the head of a string: returns (is-negative, rest). -/
def splitSign : List Char → Bool × List Char
  | '-' :: r => (true, r)
  | '+' :: r => (false, r)
  | s => (false, s)

/-- The portion of the argument after skipping leading whitespace and an
optional sign, per `strtol` base 10. -/
def signBody (s : List Char) : List Char :=
  (splitSign (s.dropWhile isSpaceC)).2

/-- Whether the optional sign was a minus. -/
def signNeg (s : List Char) : Bool :=
  (splitSign (s.dropWhile isSpaceC)).1

/-- The digits consumed by `strtol`. -/
def convDigits (s : List Char) : List Char :=
  (signBody s).takeWhile isDigitC

/-- What follows the consumed digits. -/
def convRest (s : List Char) : List Char :=
  (signBody s).dropWhile isDigitC

/-- `strtol(nptr, &endptr, 10)` before range clamping: the converted value
and the suffix `endptr` points at.  When no digit can be consumed, no
conversion is performed: the value is 0 and `endptr` is the original
`nptr` (hence the whole argument, not the whitespace-stripped remainder). -/
def strtolConv (s : List Char) : Int × List Char :=
  if convDigits s = [] then (0, s)
  else
    ((if signNeg s then -(natOfDigits (convDigits s) : Int)
      else (natOfDigits (convDigits s) : Int)),
     convRest s)

/-- LONG_MAX on the 64-bit targets the repository builds for. -/
def LONG_MAX : Int := 9223372036854775807

/-- LONG_MIN on the same targets. -/
def LONG_MIN : Int := -9223372036854775808

/-- `strtol` with ERANGE reporting: value, `endptr` suffix, and whether
`errno` was set to ERANGE (the supervisor zeroes `errno` beforehand, so
this is the only way `errno != 0` can hold afterwards). -/
def strtolC (s : List Char) : Int × List Char × Bool :=
  if (strtolConv s).1 > LONG_MAX then (LONG_MAX, (strtolConv s).2, true)
  else if (strtolConv s).1 < LONG_MIN then (LONG_MIN, (strtolConv s).2, true)
  else ((strtolConv s).1, (strtolConv s).2, false)

/-- supervisor.c lines 95-101: validation of the `-n` argument.  Rejected
when `errno != 0`, `*endptr != '\0'`, or `val_n <= 0`. -/
def parseN (s : List Char) : Option Int :=
  if (strtolC s).2.2 = true ∨ (strtolC s).2.1 ≠ [] ∨ (strtolC s).1 ≤ 0 then
    none
  else some (strtolC s).1

/-- supervisor.c lines 104-110: validation of the `-w` argument.  Rejected
when `errno != 0`, `*endptr != '\0'`, or `val_w < 0`. -/
def parseW (s : List Char) : Option Int :=
  if (strtolC s).2.2 = true ∨ (strtolC s).2.1 ≠ [] ∨ (strtolC s).1 < 0 then
    none
  else some (strtolC s).1

/-- Spec-side reading of the claim "must parse as an integer ... with no
trailing characters": after optional leading whitespace and an optional
sign, the whole remainder must be a non-empty digit string; the value is
the signed decimal value.  This definition follows the claim's words, for
comparison with the strtol-based code model. -/
def specReadsInt (s : List Char) : Option Int :=
  if signBody s ≠ [] ∧ (signBody s).all isDigitC then
    some (if signNeg s then -(natOfDigits (signBody s) : Int)
          else (natOfDigits (signBody s) : Int))
  else none

/-- Spec-side validity of a `-n` argument: an integer strictly greater
than zero, no trailing characters. -/
def specLimitOk (s : List Char) : Bool :=
  match specReadsInt s with
  | some n => decide (0 < n)
  | none => false

/-- Spec-side validity of a `-w` argument: an integer greater than or
equal to zero, no trailing characters. -/
def specDelayOk (s : List Char) : Bool :=
  match specReadsInt s with
  | some n => decide (0 ≤ n)
  | none => false

/-- Helper: the suffix returned by strtolC is the one computed by the
conversion, in every range branch. -/
theorem strtolC_rest (s : List Char) : (strtolC s).2.1 = (strtolConv s).2 := by
  rw [strtolC]
  split_ifs <;> rfl

/-- Helper: a `-n` argument that the claim deems invalid is rejected by
the supervisor's check. -/
theorem parseN_rejects (s : List Char) (h : specLimitOk s = false) :
    parseN s = none := by
  by_cases hd : convDigits s = []
  · have hconv : strtolConv s = (0, s) := by simp [strtolConv, hd]
    have hc : strtolC s = (0, s, false) := by
      rw [strtolC, hconv]
      norm_num [LONG_MAX, LONG_MIN]
    simp [parseN, hc]
  · by_cases hall : (signBody s).all isDigitC = true
    · have hbody : convDigits s = signBody s :=
        List.takeWhile_eq_self_iff.mpr (List.all_eq_true.mp hall)
      have hrest : convRest s = [] :=
        List.dropWhile_eq_nil_iff.mpr (List.all_eq_true.mp hall)
      have hbodyne : signBody s ≠ [] := by
        intro h0
        exact hd (by rw [hbody, h0])
      have hspec : specReadsInt s =
          some (if signNeg s then -(natOfDigits (signBody s) : Int)
                else (natOfDigits (signBody s) : Int)) := by
        simp [specReadsInt, hbodyne, hall]
      have hnle : (if signNeg s then -(natOfDigits (signBody s) : Int)
          else (natOfDigits (signBody s) : Int)) ≤ 0 := by
        rw [specLimitOk, hspec] at h
        simpa using h
      have hconv : strtolConv s =
          ((if signNeg s then -(natOfDigits (signBody s) : Int)
            else (natOfDigits (signBody s) : Int)), []) := by
        rw [strtolConv, if_neg hd, hbody, hrest]
      have hLM : (0 : Int) < LONG_MAX := by norm_num [LONG_MAX]
      have hhi : ¬ (strtolConv s).1 > LONG_MAX := by
        rw [hconv]; omega
      by_cases hlo : (strtolConv s).1 < LONG_MIN
      · have hc : strtolC s = (LONG_MIN, (strtolConv s).2, true) := by
          rw [strtolC, if_neg hhi, if_pos hlo]
        simp [parseN, hc]
      · have hc : strtolC s = ((strtolConv s).1, (strtolConv s).2, false) := by
          rw [strtolC, if_neg hhi, if_neg hlo]
        rw [parseN, hc]
        simp only [hconv]
        simp [hnle]
    · have hrest : convRest s ≠ [] := by
        rw [convRest]
        intro h0
        rw [List.dropWhile_eq_nil_iff] at h0
        exact absurd (List.all_eq_true.mpr h0) (by simpa using hall)
      have : (strtolC s).2.1 ≠ [] := by
        rw [strtolC_rest, strtolConv, if_neg hd]
        exact hrest
      simp [parseN, this]

/-- Helper: a non-empty `-w` argument that the claim deems invalid is
rejected by the supervisor's check.  (The empty argument is the
counterexample: it is accepted as 0.) -/
theorem parseW_rejects (s : List Char) (hne : s ≠ [])
    (h : specDelayOk s = false) : parseW s = none := by
  by_cases hd : convDigits s = []
  · have hconv : strtolConv s = (0, s) := by simp [strtolConv, hd]
    have hc : strtolC s = (0, s, false) := by
      rw [strtolC, hconv]
      norm_num [LONG_MAX, LONG_MIN]
    simp [parseW, hc, hne]
  · by_cases hall : (signBody s).all isDigitC = true
    · have hbody : convDigits s = signBody s :=
        List.takeWhile_eq_self_iff.mpr (List.all_eq_true.mp hall)
      have hrest : convRest s = [] :=
        List.dropWhile_eq_nil_iff.mpr (List.all_eq_true.mp hall)
      have hbodyne : signBody s ≠ [] := by
        intro h0
        exact hd (by rw [hbody, h0])
      have hspec : specReadsInt s =
          some (if signNeg s then -(natOfDigits (signBody s) : Int)
                else (natOfDigits (signBody s) : Int)) := by
        simp [specReadsInt, hbodyne, hall]
      have hnlt : (if signNeg s then -(natOfDigits (signBody s) : Int)
          else (natOfDigits (signBody s) : Int)) < 0 := by
        rw [specDelayOk, hspec] at h
        simpa using h
      have hconv : strtolConv s =
          ((if signNeg s then -(natOfDigits (signBody s) : Int)
            else (natOfDigits (signBody s) : Int)), []) := by
        rw [strtolConv, if_neg hd, hbody, hrest]
      have hLM : (0 : Int) < LONG_MAX := by norm_num [LONG_MAX]
      have hhi : ¬ (strtolConv s).1 > LONG_MAX := by
        rw [hconv]; omega
      by_cases hlo : (strtolConv s).1 < LONG_MIN
      · have hc : strtolC s = (LONG_MIN, (strtolConv s).2, true) := by
          rw [strtolC, if_neg hhi, if_pos hlo]
        simp [parseW, hc]
      · have hc : strtolC s = ((strtolConv s).1, (strtolConv s).2, false) := by
          rw [strtolC, if_neg hhi, if_neg hlo]
        rw [parseW, hc]
        simp only [hconv]
        simp [hnlt]
    · have hrest : convRest s ≠ [] := by
        rw [convRest]
        intro h0
        rw [List.dropWhile_eq_nil_iff] at h0
        exact absurd (List.all_eq_true.mpr h0) (by simpa using hall)
      have : (strtolC s).2.1 ≠ [] := by
        rw [strtolC_rest, strtolConv, if_neg hd]
        exact hrest
      simp [parseW, this]

/-- INT_MAX, the supervisor's default limit (supervisor.c line 87). -/
def INT_MAX : Int := 2147483647

/-- The `(int)` cast of a `long` value on the same targets: two's
complement wrap-around (supervisor.c lines 101 and 110). -/
def toCInt (v : Int) : Int := (v + 2147483648) % 4294967296 - 2147483648

/-- supervisor.c lines 92-116: the getopt loop over (option, argument)
pairs.  An invalid `-n` or `-w` value or an unknown option returns
EXIT_FAILURE (modelled as `none`) before any shared resource is touched. -/
def getoptLoop : List (Char × List Char) → Int → Int → Option (Int × Int)
  | [], limit, delay => some (limit, delay)
  | (c, a) :: rest, limit, delay =>
    if c = 'n' then
      match parseN a with
      | none => none
      | some v => getoptLoop rest (toCInt v) delay
    else if c = 'w' then
      match parseW a with
      | none => none
      | some v => getoptLoop rest limit (toCInt v)
    else none

/-- Outcome of the supervisor's startup up to resource creation:
argument parsing happens entirely before `shm_open` (supervisor.c line
119), so a parse failure exits non-zero with no shared resource created. -/
inductive StartOutcome where
  | failBeforeResources
  | proceed (limit delay : Int)
  deriving DecidableEq, Repr

/-- supervisor.c lines 86-119: parse the options (limit defaults to
INT_MAX, delay to 0); on failure, exit EXIT_FAILURE before creating any
shared resource. -/
def ownerStartup (opts : List (Char × List Char)) : StartOutcome :=
  match getoptLoop opts INT_MAX 0 with
  | none => StartOutcome.failBeforeResources
  | some (l, d) => StartOutcome.proceed l d

/-- C8 counterexample: the empty string is not an integer, yet the
supervisor accepts `-w ""` (strtol performs no conversion, leaves endptr
at the terminating NUL, and returns 0, which passes the `>= 0` check), so
this invalid value is not a hard startup failure. -/
theorem empty_delay_accepted :
    parseW [] = some 0 ∧ specDelayOk [] = false ∧
      ownerStartup [('w', [])] = StartOutcome.proceed INT_MAX 0 := by
  decide

/-- Helper for C8: an invalid option value anywhere in the list makes the
getopt loop fail, whatever the accumulated limit and delay. -/
theorem getoptLoop_bad :
    ∀ (opts : List (Char × List Char)) (c : Char) (a : List Char),
      (c, a) ∈ opts →
      ((c = 'n' ∧ specLimitOk a = false) ∨
        (c = 'w' ∧ a ≠ [] ∧ specDelayOk a = false)) →
      ∀ (limit delay : Int), getoptLoop opts limit delay = none := by
  intro opts
  induction opts with
  | nil => intro c a hmem; exact absurd hmem (by simp)
  | cons hd tl ih =>
    intro c a hmem hbad limit delay
    obtain ⟨c0, a0⟩ := hd
    rcases List.mem_cons.mp hmem with heq | htl
    · obtain ⟨hc, ha⟩ := Prod.mk.injEq .. ▸ heq
      rcases hbad with ⟨hn, hbadn⟩ | ⟨hw, hne, hbadw⟩
      · have : c0 = 'n' := by rw [← hc, hn]
        subst this
        have : parseN a0 = none := parseN_rejects a0 (by rw [← ha]; exact hbadn)
        simp [getoptLoop, this]
      · have : c0 = 'w' := by rw [← hc, hw]
        subst this
        have : parseW a0 = none :=
          parseW_rejects a0 (by rw [← ha]; exact hne)
            (by rw [← ha]; exact hbadw)
        simp [getoptLoop, this]
    · by_cases hn : c0 = 'n'
      · subst hn
        cases hpn : parseN a0 with
        | none => simp [getoptLoop, hpn]
        | some v =>
          simp only [getoptLoop, if_pos rfl, hpn]
          exact ih c a htl hbad (toCInt v) delay
      · by_cases hw : c0 = 'w'
        · subst hw
          cases hpw : parseW a0 with
          | none => simp [getoptLoop, hpw, hn]
          | some v =>
            simp only [getoptLoop, if_neg hn, if_pos rfl, hpw]
            exact ih c a htl hbad limit (toCInt v)
        · simp [getoptLoop, hn, hw]

/-- C8 amended: an invalid `-n` value (not an integer strictly greater
than zero with no trailing characters) and an invalid non-empty `-w`
value (not an integer greater than or equal to zero with no trailing
characters) are hard startup failures before any shared resource is
created; the empty `-w` argument is the exception, accepted as delay 0. -/
theorem invalid_option_fails (opts : List (Char × List Char)) (c : Char)
    (a : List Char) (hmem : (c, a) ∈ opts)
    (hbad : (c = 'n' ∧ specLimitOk a = false) ∨
      (c = 'w' ∧ a ≠ [] ∧ specDelayOk a = false)) :
    ownerStartup opts = StartOutcome.failBeforeResources := by
  have h := getoptLoop_bad opts c a hmem hbad INT_MAX 0
  simp [ownerStartup, h]

/-- Witness for invalid_option_fails: `-n 0x10` (trailing characters) and
`-w -1` (negative) both abort startup. -/
theorem invalid_option_fails_witness :
    (('n', ['0', 'x', '1', '0']) ∈ [('n', ['0', 'x', '1', '0'])] ∧
      specLimitOk ['0', 'x', '1', '0'] = false ∧
      ownerStartup [('n', ['0', 'x', '1', '0'])] =
        StartOutcome.failBeforeResources) ∧
    ownerStartup [('w', ['-', '1'])] = StartOutcome.failBeforeResources :=
  ⟨⟨by decide, by decide,
    invalid_option_fails [('n', ['0', 'x', '1', '0'])] 'n'
      ['0', 'x', '1', '0'] (by decide) (Or.inl ⟨rfl, by decide⟩)⟩,
   invalid_option_fails [('w', ['-', '1'])] 'w' ['-', '1'] (by decide)
     (Or.inr ⟨rfl, by decide, by decide⟩)⟩

/-- One `%d` conversion of `sscanf`: skip whitespace, optional sign, at
least one digit; returns the value and the unconsumed suffix.  Trailing
input after the conversions is ignored by `sscanf`, and node identifiers
are not bounded in any way. -/
def scanInt (s : List Char) : Option (Int × List Char) :=
  if (splitSign (s.dropWhile isSpaceC)).2.takeWhile isDigitC = [] then none
  else some
    ((if (splitSign (s.dropWhile isSpaceC)).1 then
        -(natOfDigits
            ((splitSign (s.dropWhile isSpaceC)).2.takeWhile isDigitC) : Int)
      else (natOfDigits
            ((splitSign (s.dropWhile isSpaceC)).2.takeWhile isDigitC) : Int)),
     (splitSign (s.dropWhile isSpaceC)).2.dropWhile isDigitC)

/-- generator.c line 37: `sscanf(arg, "%d-%d", &u, &v) == 2`.  The literal
`-` must match the next input character exactly; the second `%d` may again
skip whitespace. -/
def sscanfEdge (s : List Char) : Option Edge :=
  match scanInt s with
  | none => none
  | some (u, r1) =>
    match r1 with
    | '-' :: r2 =>
      match scanInt r2 with
      | none => none
      | some (v, _) => some (Edge.mk u v)
    | _ => none

/-- generator.c lines 36-44: parse every argument, failing on the first
malformed one. -/
def parseAll : List (List Char) → Option (List Edge)
  | [] => some []
  | a :: rest =>
    match sscanfEdge a with
    | none => none
    | some e =>
      match parseAll rest with
      | none => none
      | some es => some (e :: es)

/-- generator.c lines 29-45 (parse_graph): reject more than MAX_EDGES
edges, then parse each `u-v` argument; node identifiers are never
compared against MAX_NODES. -/
def parse_graph (args : List (List Char)) : Option (List Edge) :=
  if args.length > MAX_EDGES then none else parseAll args

/-- generator.c lines 42-43: the fold computing max_node_id, which starts
at 0. -/
def maxStep (m : Int) (e : Edge) : Int := max (max m e.u) e.v

/-- The value of `max_node_id` after parsing. -/
def maxNodeId (es : List Edge) : Int := es.foldl maxStep 0

/-- The color-assignment loop (generator.c lines 85-87) accesses
`colors[i]` for every `0 <= i <= max_node_id`; in-bounds means every such
index is below MAX_NODES. -/
def colorIndexInBounds (es : List Edge) : Prop :=
  ∀ i : Int, 0 ≤ i → i ≤ maxNodeId es → i < MAX_NODES

/-- The conflict-check loop (generator.c lines 94-98) accesses `colors[u]`
and `colors[v]` for every parsed edge; in-bounds means every such index is
non-negative and below MAX_NODES. -/
def conflictIndexInBounds (es : List Edge) : Prop :=
  ∀ e ∈ es, (0 ≤ e.u ∧ e.u < MAX_NODES) ∧ (0 ≤ e.v ∧ e.v < MAX_NODES)

/-- Helper: a fold of maxStep never goes below its starting value. -/
theorem le_foldl_maxStep : ∀ (es : List Edge) (a : Int),
    a ≤ es.foldl maxStep a := by
  intro es
  induction es with
  | nil => intro a; exact le_refl a
  | cons e rest ih =>
    intro a
    calc a ≤ maxStep a e :=
          le_trans (le_max_left a e.u) (le_max_left (max a e.u) e.v)
      _ ≤ (e :: rest).foldl maxStep a := ih (maxStep a e)

/-- Helper: every edge endpoint is bounded by the maxStep fold. -/
theorem mem_le_foldl_maxStep : ∀ (es : List Edge) (a : Int) (e : Edge),
    e ∈ es → e.u ≤ es.foldl maxStep a ∧ e.v ≤ es.foldl maxStep a := by
  intro es
  induction es with
  | nil => intro a e he; exact absurd he (by simp)
  | cons f rest ih =>
    intro a e he
    rcases List.mem_cons.mp he with heq | htl
    · subst heq
      constructor
      · calc e.u ≤ maxStep a e :=
              le_trans (le_max_right a e.u) (le_max_left (max a e.u) e.v)
          _ ≤ (e :: rest).foldl maxStep a := le_foldl_maxStep rest (maxStep a e)
      · calc e.v ≤ maxStep a e := le_max_right (max a e.u) e.v
          _ ≤ (e :: rest).foldl maxStep a := le_foldl_maxStep rest (maxStep a e)
    · exact ih (maxStep a f) e htl

/-- Helper: parseAll succeeds when every argument scans. -/
theorem parseAll_isSome : ∀ (args : List (List Char)),
    (∀ a ∈ args, (sscanfEdge a).isSome = true) →
    (parseAll args).isSome = true := by
  intro args
  induction args with
  | nil => intro _; rfl
  | cons a rest ih =>
    intro h
    obtain ⟨e, he⟩ := Option.isSome_iff_exists.mp (h a (by simp))
    obtain ⟨es, hes⟩ := Option.isSome_iff_exists.mp
      (ih (fun b hb => h b (by simp [hb])))
    simp [parseAll, he, hes]

/-- C9: the argument parser accepts any well-formed `u-v` list of at most
MAX_EDGES edges with no bound on node identifiers (concretely, it accepts
the node id 150 ≥ MAX_NODES), while the color-assignment and conflict-check
loops index the MAX_NODES-entry color array in bounds only if every
accepted node id is below MAX_NODES. -/
theorem parser_unbounded_ids_bounds_precondition :
    (∀ args : List (List Char), args.length ≤ MAX_EDGES →
      (∀ a ∈ args, (sscanfEdge a).isSome = true) →
      (parse_graph args).isSome = true) ∧
    parse_graph [['1', '5', '0', '-', '2']] = some [Edge.mk 150 2] ∧
    (∀ es : List Edge, colorIndexInBounds es →
      ∀ e ∈ es, e.u < MAX_NODES ∧ e.v < MAX_NODES) ∧
    (∀ es : List Edge, conflictIndexInBounds es →
      ∀ e ∈ es, e.u < MAX_NODES ∧ e.v < MAX_NODES) := by
  refine ⟨?_, by decide, ?_, ?_⟩
  · intro args hlen hall
    rw [parse_graph, if_neg (by omega)]
    exact parseAll_isSome args hall
  · intro es hb e he
    have hm := mem_le_foldl_maxStep es 0 e he
    have h0 : (0 : Int) ≤ maxNodeId es := le_foldl_maxStep es 0
    have hmax : maxNodeId es < MAX_NODES := hb (maxNodeId es) h0 (le_refl _)
    exact ⟨lt_of_le_of_lt hm.1 hmax, lt_of_le_of_lt hm.2 hmax⟩
  · intro es hb e he
    exact ⟨((hb e he).1).2, ((hb e he).2).2⟩

/-- Witness for parser_unbounded_ids_bounds_precondition at concrete
inputs: a one-edge argument list is accepted, and a one-edge graph whose
color-loop accesses stay in bounds has both endpoints below MAX_NODES. -/
theorem parser_unbounded_ids_bounds_precondition_witness :
    ([['1', '-', '2']] : List (List Char)).length ≤ MAX_EDGES ∧
      (parse_graph [['1', '-', '2']]).isSome = true ∧
      ((Edge.mk 5 7).u < MAX_NODES ∧ (Edge.mk 5 7).v < MAX_NODES) :=
  ⟨by decide,
   parser_unbounded_ids_bounds_precondition.1 [['1', '-', '2']] (by decide)
     (by decide),
   (parser_unbounded_ids_bounds_precondition.2.2.1 [Edge.mk 5 7]
       (by
         intro i h0 hm
         have h7 : maxNodeId [Edge.mk 5 7] = 7 := by decide
         rw [h7] at hm
         have : (7 : Int) < MAX_NODES := by decide
         omega)
       (Edge.mk 5 7) (by simp))⟩

end GraphColoring
